import Mathlib

/-!
# smart-mcp-proxy — verification of the backend fleet manager

A shallow embedding of the core of `smart-mcp-proxy` (Go) in Lean 4, with
theorems settling the frozen specification claims.

Conventions of the embedding:
* Go slices become `List`; Go maps used as dictionaries become association
  lists with distinct keys (the Go map invariant appears as a `Nodup`
  hypothesis where iteration order matters).
* Arbitrary JSON payloads that the proxy never inspects (`inputSchema`,
  `annotations`, request arguments) are carried opaquely as `String`.
* Stateful code becomes explicit state passing; the stdio transport of a
  backend is a total function from the request the proxy writes to the reply
  line it reads; the unbounded pagination loop takes explicit fuel and
  returns `none` when the fuel runs out (an artifact of the embedding, never
  reached by the theorems' witnesses).
* Fallible Go functions returning `error` become `Except String`/`Option`.
-/

namespace SmartMCPProxy

/-! ## Data model (src/internal/config/config.go) -/

/-- `MCPServerConfig` from config.go: declarative description of one backend.
`env` is an association list standing for Go's `map[string]interface{}`. -/
structure MCPServerConfig where
  name : String
  address : String := ""
  command : String := ""
  args : List String := []
  env : List (String × String) := []
  allowedTools : List String := []
  allowedResources : List String := []
  deriving Repr, DecidableEq

/-- `Config` from config.go: the whole proxy configuration. -/
structure Config where
  mcpServers : List MCPServerConfig
  deriving Repr, DecidableEq

/-- `ToolInfo` from config.go. `inputSchema` and `annotations` are arbitrary
JSON objects in the source; they are carried opaquely here. -/
structure ToolInfo where
  name : String
  description : String := ""
  inputSchema : String := ""
  annotations : String := ""
  deriving Repr, DecidableEq

/-- `ResourceInfo` from config.go. -/
structure ResourceInfo where
  uri : String := ""
  uriTemplate : String := ""
  name : String
  description : String := ""
  mimeType : String := ""
  deriving Repr, DecidableEq

/-! ## Config.Validate (config.go lines 38-61) -/

/-- Go's `strings.TrimSpace`: remove leading and trailing whitespace.
Implemented over the character list so that the kernel can evaluate it on
concrete strings. -/
def trimSpace (s : String) : String :=
  String.mk (((s.data.dropWhile Char.isWhitespace).reverse.dropWhile
    Char.isWhitespace).reverse)

/-- The loop body of `Config.Validate`: walks the server list carrying the
index `i` and the set of names seen so far (Go's `names` map, here a list).
Mirrors the source order of checks: blank name, duplicate name, then
neither-address-nor-command. -/
def validateServers : List MCPServerConfig → Nat → List String → Except String Unit
  | [], _, _ => .ok ()
  | sc :: rest, i, seen =>
    if trimSpace sc.name = "" then
      .error s!"mcp_servers[{i}]: name is required"
    else if seen.contains sc.name then
      .error s!"mcp_servers[{i}]: duplicate server name"
    else if trimSpace sc.address = "" && trimSpace sc.command = "" then
      .error s!"mcp_servers[{i}]: either address or command is required"
    else
      validateServers rest (i + 1) (sc.name :: seen)

/-- `Config.Validate` from config.go. -/
def Config.validate (c : Config) : Except String Unit :=
  if c.mcpServers.isEmpty then
    .error "no MCP servers defined in configuration"
  else
    validateServers c.mcpServers 0 []

/-- Success characterization of the validation loop, generalized over the
accumulator of already-seen names. -/
theorem validateServers_ok_iff (l : List MCPServerConfig) (i : Nat) (seen : List String) :
    validateServers l i seen = .ok () ↔
      (∀ s ∈ l, trimSpace s.name ≠ "") ∧
      (∀ s ∈ l, s.name ∉ seen) ∧
      (l.map MCPServerConfig.name).Nodup ∧
      (∀ s ∈ l, ¬(trimSpace s.address = "" ∧ trimSpace s.command = "")) := by
  induction l generalizing i seen with
  | nil => simp [validateServers]
  | cons sc rest ih =>
    by_cases hblank : trimSpace sc.name = ""
    · simp [validateServers, hblank]
    · by_cases hdup : seen.contains sc.name = true
      · simp only [validateServers, if_neg hblank, if_pos hdup]
        constructor
        · intro h; exact absurd h (by simp)
        · rintro ⟨-, hseen, -, -⟩
          exact absurd (List.elem_iff.mp hdup)
            (hseen sc (List.mem_cons_self sc rest))
      · by_cases haddr : (trimSpace sc.address = "" && trimSpace sc.command = "") = true
        · simp only [validateServers, if_neg hblank, if_neg hdup, if_pos haddr]
          constructor
          · intro h; exact absurd h (by simp)
          · rintro ⟨-, -, -, hac⟩
            have := hac sc (List.mem_cons_self sc rest)
            rw [Bool.and_eq_true] at haddr
            exact (this ⟨by simpa using haddr.1, by simpa using haddr.2⟩).elim
        · simp only [validateServers, if_neg hblank, if_neg hdup, if_neg haddr]
          rw [ih (i + 1) (sc.name :: seen)]
          constructor
          · rintro ⟨h1, h2, h3, h4⟩
            refine ⟨?_, ?_, ?_, ?_⟩
            · intro s hs
              rcases List.mem_cons.mp hs with rfl | hs
              · exact hblank
              · exact h1 s hs
            · intro s hs
              rcases List.mem_cons.mp hs with rfl | hs
              · intro hmem
                exact hdup (List.elem_iff.mpr hmem)
              · intro hmem
                exact h2 s hs (List.mem_cons_of_mem _ hmem)
            · refine List.nodup_cons.mpr ⟨?_, h3⟩
              intro hmem
              rcases List.mem_map.mp hmem with ⟨s, hs, hname⟩
              exact h2 s hs (by rw [hname]; exact List.mem_cons_self _ _)
            · intro s hs
              rcases List.mem_cons.mp hs with rfl | hs
              · intro hc
                exact haddr (by simp [hc.1, hc.2])
              · exact h4 s hs
          · rintro ⟨h1, h2, h3, h4⟩
            refine ⟨?_, ?_, ?_, ?_⟩
            · intro s hs; exact h1 s (List.mem_cons_of_mem _ hs)
            · intro s hs hmem
              rcases List.mem_cons.mp hmem with hname | hmem
              · have := List.nodup_cons.mp h3
                exact this.1 (List.mem_map.mpr ⟨s, hs, hname⟩)
              · exact h2 s (List.mem_cons_of_mem _ hs) hmem
            · exact (List.nodup_cons.mp h3).2
            · intro s hs; exact h4 s (List.mem_cons_of_mem _ hs)

/-- The configuration used as a counterexample below: a single server that
sets both `address` and `command`. -/
def cfgBothSet : Config :=
  { mcpServers := [{ name := "dual", address := "http://localhost:9000",
                     command := "/usr/bin/backend" }] }

/-- C2 counterexample: the claim says a configuration in which some server
sets both `address` and `command` is rejected by `Validate`; the code accepts
`cfgBothSet`, whose only server sets both fields (non-blank). -/
theorem validate_accepts_both_address_and_command :
    Config.validate cfgBothSet = Except.ok () ∧
      ∃ s ∈ cfgBothSet.mcpServers, trimSpace s.address ≠ "" ∧ trimSpace s.command ≠ "" := by
  refine ⟨rfl, ⟨{ name := "dual", address := "http://localhost:9000",
                  command := "/usr/bin/backend" }, by decide, by decide, by decide⟩⟩

/-- C2 (amended): `Validate` succeeds iff the server list is non-empty, every
server name is non-blank (after trimming) and unique across the list, and
every server has **at least** one of `address`/`command` non-blank; a server
setting both is accepted. -/
theorem validate_ok_iff (c : Config) :
    Config.validate c = Except.ok () ↔
      c.mcpServers ≠ [] ∧
      (∀ s ∈ c.mcpServers, trimSpace s.name ≠ "") ∧
      (c.mcpServers.map MCPServerConfig.name).Nodup ∧
      (∀ s ∈ c.mcpServers, ¬(trimSpace s.address = "" ∧ trimSpace s.command = "")) := by
  unfold Config.validate
  by_cases hemp : c.mcpServers.isEmpty
  · simp only [hemp, if_pos]
    constructor
    · intro h; exact absurd h (by simp)
    · rintro ⟨hne, -⟩
      exact absurd (List.isEmpty_iff.mp hemp) hne
  · rw [if_neg hemp, validateServers_ok_iff]
    constructor
    · rintro ⟨h1, -, h3, h4⟩
      exact ⟨fun h => hemp (by simp [h]), h1, h3, h4⟩
    · rintro ⟨-, h1, h3, h4⟩
      exact ⟨h1, by simp, h3, h4⟩

/-! ## MCPServer runtime state and allow-list checks
(config.go lines 63-93, 653-677) -/

/-- The catalog-bearing part of `MCPServer` from config.go: its config and the
four cached capability sequences (`tools`, `restrictedTools`, `resources`,
`restrictedResources`). Process handles, pipes and mutexes are modelled
elsewhere (the supervisor step and the explicit-store slice model). -/
structure MCPServer where
  config : MCPServerConfig
  tools : List ToolInfo := []
  restrictedTools : List ToolInfo := []
  resources : List ResourceInfo := []
  restrictedResources : List ResourceInfo := []
  deriving Repr, DecidableEq

/-- `MCPServer.IsToolAllowed` from config.go: an empty `AllowedTools` list
allows every tool, otherwise the name must occur in the list. -/
def MCPServer.IsToolAllowed (s : MCPServer) (toolName : String) : Bool :=
  if s.config.allowedTools.isEmpty then true
  else s.config.allowedTools.contains toolName

/-- `MCPServer.IsResourceAllowed` from config.go. -/
def MCPServer.IsResourceAllowed (s : MCPServer) (resourceName : String) : Bool :=
  if s.config.allowedResources.isEmpty then true
  else s.config.allowedResources.contains resourceName

/-! ## Fleet lookup and CallTool routing (cmd/proxy/proxy.go) -/

/-- `ProxyServer.findMCPServerByName` from proxy.go: linear scan, first
name match. -/
def findMCPServerByName (servers : List MCPServer) (name : String) : Option MCPServer :=
  servers.find? (fun s => s.config.name = name)

/-- `ProxyServer.findMCPServerByTool` from proxy.go: linear scan, first
backend whose allow-list admits the tool. -/
def findMCPServerByTool (servers : List MCPServer) (toolName : String) : Option MCPServer :=
  servers.find? (fun s => s.IsToolAllowed toolName)

/-- The error kinds of §7, as dispatched by `CallTool`/the frontends. The
source's `CallTool` fails with the tool-not-found error when no backend is
found for the tool. -/
inductive ProxyError where
  | toolNotFound (toolName : String)
  | backendCommunication (detail : String)
  | internalProxy (detail : String)
  deriving Repr, DecidableEq

/-- `ProxyServer.CallTool` from proxy.go, up to the choice of backend: the
routing prefix is the code's `findMCPServerByTool` + error return; the
transport-specific dispatch (stdio write/read or HTTP POST) is abstracted as
the `dispatch` argument, applied to the backend the lookup selects. -/
def CallTool (dispatch : MCPServer → Except ProxyError α)
    (servers : List MCPServer) (toolName : String) : Except ProxyError α :=
  match findMCPServerByTool servers toolName with
  | none => .error (.toolNotFound toolName)
  | some server => dispatch server

/-- C1: tool lookup scans backends in config order and returns the first whose
allowed-tools set contains the name (an empty `allowedTools` denotes the
allow-all set, so a backend with a non-empty allow-list never matches a name
outside it); when no backend admits the name, `CallTool` fails with the
tool-not-found error. -/
theorem findMCPServerByTool_spec {α : Type} (dispatch : MCPServer → Except ProxyError α)
    (servers pre post : List MCPServer) (s : MCPServer) (toolName : String)
    (hsplit : servers = pre ++ s :: post)
    (hpre : ∀ b ∈ pre, b.IsToolAllowed toolName = false)
    (hs : s.IsToolAllowed toolName = true) :
    findMCPServerByTool servers toolName = some s ∧
    (∀ b ∈ servers, b.IsToolAllowed toolName = true →
      b.config.allowedTools ≠ [] → toolName ∈ b.config.allowedTools) ∧
    (∀ servers' : List MCPServer,
      (∀ b ∈ servers', b.IsToolAllowed toolName = false) →
      CallTool dispatch servers' toolName = .error (.toolNotFound toolName)) := by
  refine ⟨?_, ?_, ?_⟩
  · subst hsplit
    induction pre with
    | nil => simp [findMCPServerByTool, List.find?_cons, hs]
    | cons b rest ih =>
      have hb : b.IsToolAllowed toolName = false := hpre b (List.mem_cons_self _ _)
      have hrest : ∀ x ∈ rest, x.IsToolAllowed toolName = false :=
        fun x hx => hpre x (List.mem_cons_of_mem _ hx)
      simpa [findMCPServerByTool, List.find?_cons, hb] using ih hrest
  · intro b _ hallow hne
    unfold MCPServer.IsToolAllowed at hallow
    rw [if_neg (by simpa using hne)] at hallow
    exact List.elem_iff.mp hallow
  · intro servers' hnone
    have : findMCPServerByTool servers' toolName = none := by
      apply List.find?_eq_none.mpr
      intro b hb
      simp [hnone b hb]
    simp [CallTool, this]

/-- C1 witness: a two-backend fleet in which the first backend's allow-list
excludes `t2`; lookup skips it and selects the second backend, whose
(non-empty) allow-list contains `t2`; and on a name nobody admits, `CallTool`
fails with the tool-not-found error. -/
theorem findMCPServerByTool_spec_witness :
    findMCPServerByTool
        [{ config := { name := "a", address := "http://a", allowedTools := ["t1"] } },
         { config := { name := "b", address := "http://b", allowedTools := ["t2"] } }] "t2" =
      some { config := { name := "b", address := "http://b", allowedTools := ["t2"] } } ∧
    CallTool (fun _ => Except.ok 0)
        [{ config := { name := "a", address := "http://a", allowedTools := ["t1"] } }] "t2" =
      Except.error (ProxyError.toolNotFound "t2") := by
  have h := findMCPServerByTool_spec (fun _ => Except.ok 0)
    [{ config := { name := "a", address := "http://a", allowedTools := ["t1"] } },
     { config := { name := "b", address := "http://b", allowedTools := ["t2"] } }]
    [{ config := { name := "a", address := "http://a", allowedTools := ["t1"] } }] []
    { config := { name := "b", address := "http://b", allowedTools := ["t2"] } } "t2"
    rfl (by decide) (by decide)
  exact ⟨h.1, h.2.2 [{ config := { name := "a", address := "http://a", allowedTools := ["t1"] } }]
    (by decide)⟩

/-! ## Catalog partitioning (config.go lines 340-365) -/

/-- The allowed-tool predicate of the partition loop in
`refreshToolsAndResources`: `len(AllowedTools) == 0 || slices.Contains(...)`. -/
def toolAllowedPred (cfg : MCPServerConfig) (t : ToolInfo) : Bool :=
  cfg.allowedTools.isEmpty || cfg.allowedTools.contains t.name

/-- The allowed-resource predicate of the partition loop. -/
def resourceAllowedPred (cfg : MCPServerConfig) (r : ResourceInfo) : Bool :=
  cfg.allowedResources.isEmpty || cfg.allowedResources.contains r.name

/-- The tool partition loop of `refreshToolsAndResources`: appends each
fetched tool to `allowedTools` or `restrictedTools` in catalog order, which is
exactly a pair of filters. -/
def partitionTools (cfg : MCPServerConfig) (toolInfos : List ToolInfo) :
    List ToolInfo × List ToolInfo :=
  (toolInfos.filter (toolAllowedPred cfg),
   toolInfos.filter (fun t => !toolAllowedPred cfg t))

/-- The resource partition loop of `refreshToolsAndResources`. -/
def partitionResources (cfg : MCPServerConfig) (resourceInfos : List ResourceInfo) :
    List ResourceInfo × List ResourceInfo :=
  (resourceInfos.filter (resourceAllowedPred cfg),
   resourceInfos.filter (fun r => !resourceAllowedPred cfg r))

/-! ## Stdio catalog fetch with pagination (config.go lines 464-555)

The stdio transport is abstracted as a total function `handle` from the
JSON-RPC request the proxy writes to the reply line it reads back
(`HandleStdioRequest`); the unbounded `for` loop takes fuel and yields `none`
on exhaustion. -/

/-- The JSON-RPC request object built by `sendRequest` inside
`fetchToolsAndResourcesStdio`: `{"jsonrpc": "2.0", "id": 1, "method": ...,
"params": ...}` where params is the empty object on the first call and
`{"cursor": <prev>}` afterwards. -/
structure Request where
  jsonrpc : String
  id : Nat
  method : String
  params : List (String × String)
  deriving Repr, DecidableEq

/-- One loop iteration's request, as the source builds it from the running
cursor. -/
def mkListRequest (method cursor : String) : Request :=
  { jsonrpc := "2.0", id := 1, method := method,
    params := if cursor = "" then [] else [("cursor", cursor)] }

/-- The `result` object of a `tools/list` / `resources/list` reply
(`stdioToolsAndResourceInfo.Result` in config.go). -/
structure ListPage where
  tools : List ToolInfo := []
  resources : List ResourceInfo := []
  nextCursor : String := ""
  deriving Repr, DecidableEq

/-- A decoded reply line: either a result page or a JSON-RPC error object
(of which the source only inspects the `message` field). -/
inductive ListReply where
  | ok (page : ListPage)
  | err (message : String)
  deriving Repr, DecidableEq

/-- The pagination loop of `sendRequest` in `fetchToolsAndResourcesStdio`.
Returns the trace of (request, reply) pairs together with the error outcome:
an error reply with message exactly `"Method not found"` ends the loop
without error; any other error reply ends it with an error; an ok page with
empty `nextCursor` ends it normally; otherwise the loop repeats with the new
cursor. -/
def sendRequestLoop (handle : Request → ListReply) (method : String) :
    Nat → String → Option (List (Request × ListReply) × Option String)
  | 0, _ => none
  | fuel + 1, cursor =>
    let req := mkListRequest method cursor
    match handle req with
    | .err msg =>
      if msg = "Method not found" then some ([(req, .err msg)], none)
      else some ([(req, .err msg)], some ("error response: " ++ msg))
    | .ok page =>
      if page.nextCursor = "" then some ([(req, .ok page)], none)
      else
        match sendRequestLoop handle method fuel page.nextCursor with
        | none => none
        | some (steps, err) => some ((req, .ok page) :: steps, err)

/-- The pages accumulated in the source's `allItems`: exactly the ok replies
of the trace, in order. -/
def okPages (steps : List (Request × ListReply)) : List ListPage :=
  steps.filterMap (fun st => match st.2 with | .ok p => some p | .err _ => none)

/-- `sendRequest` from `fetchToolsAndResourcesStdio`: run the loop from the
empty cursor and return the collected pages and the error outcome. -/
def sendRequest (handle : Request → ListReply) (method : String) (fuel : Nat) :
    Option (List ListPage × Option String) :=
  (sendRequestLoop handle method fuel "").map (fun r => (okPages r.1, r.2))

/-- `fetchToolsAndResourcesStdio` from config.go: issue `tools/list` then
`resources/list`; a list whose fetch failed contributes no items (the `else`
branch of the source appends pages only on success); the returned error
prefers the tools failure. The resources-failure message mirrors the source,
which wraps `toolErr` (nil in that branch, rendered by Go's `fmt` as
`%!w(<nil>)`) instead of `resourceErr`. -/
def fetchToolsAndResourcesStdio (serverName : String) (handle : Request → ListReply)
    (fuel : Nat) : Option (List ToolInfo × List ResourceInfo × Option String) :=
  match sendRequest handle "tools/list" fuel, sendRequest handle "resources/list" fuel with
  | some (toolPages, toolErr), some (resourcePages, resourceErr) =>
    let tools := if toolErr.isSome then []
      else toolPages.foldl (fun acc p => acc ++ p.tools) []
    let resources := if resourceErr.isSome then []
      else resourcePages.foldl (fun acc p => acc ++ p.resources) []
    let err : Option String :=
      match toolErr, resourceErr with
      | some e, _ => some ("failed to fetch tools for server " ++ serverName ++ ": " ++ e)
      | none, some _ =>
        some ("failed to fetch resources for server " ++ serverName ++ ": %!w(<nil>)")
      | none, none => none
    some (tools, resources, err)
  | _, _ => none

/-- `refreshToolsAndResources` from config.go, stdio branch: fetch, return
the error (leaving all four cached catalogs untouched) if the fetch failed,
otherwise partition by the allow-lists and replace the four cached
sequences. -/
def refreshToolsAndResources (s : MCPServer) (handle : Request → ListReply)
    (fuel : Nat) : Option (MCPServer × Option String) :=
  match fetchToolsAndResourcesStdio s.config.name handle fuel with
  | none => none
  | some (_, _, some e) => some (s, some e)
  | some (toolInfos, resourceInfos, none) =>
    let pt := partitionTools s.config toolInfos
    let pr := partitionResources s.config resourceInfos
    some ({ s with
              tools := pt.fst
              restrictedTools := pt.snd
              resources := pr.fst
              restrictedResources := pr.snd }, none)

/-- A trace step is followed by another exactly when its reply was an ok page
with a non-empty `nextCursor`, and the next request repeats the call with
`{"cursor": <that cursor>}`. -/
def pageFollows (method : String) (st next : Request × ListReply) : Prop :=
  ∃ p, st.2 = ListReply.ok p ∧ p.nextCursor ≠ "" ∧ next.1 = mkListRequest method p.nextCursor

/-- Structure of any terminating run of the pagination loop: every issued
request is the JSON-RPC 2.0 frame for `method` with id 1 and the reply the
transport gave it; the first request uses the starting cursor; each later
request chains on the previous page's non-empty `nextCursor`; and an
error-free run ends on a page with empty cursor. -/
theorem sendRequestLoop_spec (handle : Request → ListReply) (method : String) :
    ∀ (fuel : Nat) (cursor : String) (steps : List (Request × ListReply)) (err : Option String),
      sendRequestLoop handle method fuel cursor = some (steps, err) →
      (∀ st ∈ steps, st.1.jsonrpc = "2.0" ∧ st.1.id = 1 ∧ st.1.method = method ∧
        st.2 = handle st.1) ∧
      steps.head?.map Prod.fst = some (mkListRequest method cursor) ∧
      List.Chain' (pageFollows method) steps ∧
      (err = none → ∀ r p, steps.getLast? = some (r, ListReply.ok p) → p.nextCursor = "") := by
  intro fuel
  induction fuel with
  | zero => intro cursor steps err h; exact absurd h (by simp [sendRequestLoop])
  | succ fuel ih =>
    intro cursor steps err h
    rw [sendRequestLoop] at h
    cases hh : handle (mkListRequest method cursor) with
    | ok page =>
      rw [hh] at h
      dsimp only at h
      by_cases hnc : page.nextCursor = ""
      · rw [if_pos hnc, Option.some.injEq, Prod.mk.injEq] at h
        obtain ⟨rfl, rfl⟩ := h
        refine ⟨?_, rfl, List.chain'_singleton _, ?_⟩
        · intro st hst
          rw [List.mem_singleton] at hst
          subst hst
          exact ⟨rfl, rfl, rfl, hh.symm⟩
        · intro _ r p hlast
          have h2 : ListReply.ok page = ListReply.ok p :=
            congrArg Prod.snd (Option.some.inj hlast)
          cases h2
          exact hnc
      · rw [if_neg hnc] at h
        cases hrec : sendRequestLoop handle method fuel page.nextCursor with
        | none => rw [hrec] at h; exact absurd h (by simp)
        | some pr =>
          obtain ⟨steps', err'⟩ := pr
          rw [hrec, Option.some.injEq, Prod.mk.injEq] at h
          obtain ⟨rfl, rfl⟩ := h
          obtain ⟨ih1, ih2, ih3, ih4⟩ := ih page.nextCursor steps' err' hrec
          obtain ⟨x, xs, rfl⟩ : ∃ x xs, steps' = x :: xs := by
            cases steps' with
            | nil => simp at ih2
            | cons x xs => exact ⟨x, xs, rfl⟩
          have hx : x.1 = mkListRequest method page.nextCursor := by
            simpa using ih2
          refine ⟨?_, rfl, ?_, ?_⟩
          · intro st hst
            rcases List.mem_cons.mp hst with rfl | hst
            · exact ⟨rfl, rfl, rfl, hh.symm⟩
            · exact ih1 st hst
          · exact List.chain'_cons.mpr ⟨⟨page, rfl, hnc, hx⟩, ih3⟩
          · intro herr r p hlast
            rw [List.getLast?_cons_cons] at hlast
            exact ih4 herr r p hlast
    | err msg =>
      rw [hh] at h
      dsimp only at h
      have hform : ∀ e : Option String,
          some ([(mkListRequest method cursor, ListReply.err msg)], e) = some (steps, err) →
          (∀ st ∈ steps, st.1.jsonrpc = "2.0" ∧ st.1.id = 1 ∧ st.1.method = method ∧
            st.2 = handle st.1) ∧
          steps.head?.map Prod.fst = some (mkListRequest method cursor) ∧
          List.Chain' (pageFollows method) steps ∧
          (err = none → ∀ r p, steps.getLast? = some (r, ListReply.ok p) →
            p.nextCursor = "") := by
        intro e he
        rw [Option.some.injEq, Prod.mk.injEq] at he
        obtain ⟨rfl, rfl⟩ := he
        refine ⟨?_, rfl, List.chain'_singleton _, ?_⟩
        · intro st hst
          rw [List.mem_singleton] at hst
          subst hst
          exact ⟨rfl, rfl, rfl, hh.symm⟩
        · intro _ r p hlast
          have h2 : ListReply.err msg = ListReply.ok p :=
            congrArg Prod.snd (Option.some.inj hlast)
          exact absurd h2 (by simp)
      by_cases hmsg : msg = "Method not found"
      · rw [if_pos hmsg] at h
        exact hform none h
      · rw [if_neg hmsg] at h
        exact hform _ h

/-- Accumulating appends (the source's `tools = append(tools, tr.Result.Tools...)`
loop) concatenates the per-page arrays in page order. -/
theorem foldl_append_eq_flatten {α β : Type} (f : α → List β) (l : List α) (acc : List β) :
    l.foldl (fun a p => a ++ f p) acc = acc ++ (l.map f).flatten := by
  induction l generalizing acc with
  | nil => simp
  | cons x xs ih => simp [List.foldl_cons, ih (acc ++ f x)]

/-- C7: every stdio list fetch issues JSON-RPC 2.0 requests with `jsonrpc`
`"2.0"` and fixed id 1; the first request carries an empty params object and
each later request carries `{"cursor": <previous nextCursor>}`; the loop
repeats exactly while `nextCursor` is non-empty and, absent errors, ends on a
page with empty cursor; and the fetched lists are the concatenation of the
per-page `tools`/`resources` arrays in page order. -/
theorem stdio_list_fetch_paginates (serverName : String) (handle : Request → ListReply)
    (fuel : Nat) (method : String) (steps : List (Request × ListReply)) (err : Option String)
    (h : sendRequestLoop handle method fuel "" = some (steps, err)) :
    (∀ st ∈ steps, st.1.jsonrpc = "2.0" ∧ st.1.id = 1 ∧ st.1.method = method) ∧
    steps.head?.map Prod.fst =
      some { jsonrpc := "2.0", id := 1, method := method, params := [] } ∧
    List.Chain' (pageFollows method) steps ∧
    (err = none → ∀ r p, steps.getLast? = some (r, ListReply.ok p) → p.nextCursor = "") ∧
    (∀ tp rp, sendRequest handle "tools/list" fuel = some (tp, none) →
      sendRequest handle "resources/list" fuel = some (rp, none) →
      fetchToolsAndResourcesStdio serverName handle fuel =
        some ((tp.map ListPage.tools).flatten, (rp.map ListPage.resources).flatten, none)) := by
  obtain ⟨h1, h2, h3, h4⟩ := sendRequestLoop_spec handle method fuel "" steps err h
  refine ⟨fun st hst => ⟨(h1 st hst).1, (h1 st hst).2.1, (h1 st hst).2.2.1⟩,
    by simpa [mkListRequest] using h2, h3, h4, ?_⟩
  intro tp rp htp hrp
  rw [fetchToolsAndResourcesStdio, htp, hrp]
  simp [foldl_append_eq_flatten]

/-! Concrete transports used by the witnesses and counterexamples below. -/

/-- Sample tools and resource. -/
def sampleTool1 : ToolInfo := { name := "t1" }

def sampleTool2 : ToolInfo := { name := "t2" }

def sampleRes1 : ResourceInfo := { name := "r1" }

/-- A backend whose `tools/list` paginates over two pages (cursor `"c1"`)
and whose `resources/list` fits in one page. -/
def pagedHandle : Request → ListReply := fun r =>
  if r.method = "tools/list" then
    if r.params = [] then ListReply.ok { tools := [sampleTool1], nextCursor := "c1" }
    else if r.params = [("cursor", "c1")] then ListReply.ok { tools := [sampleTool2] }
    else ListReply.err "unexpected cursor"
  else
    if r.params = [] then ListReply.ok { resources := [sampleRes1] }
    else ListReply.err "unexpected cursor"

/-- The trace the pagination loop produces against `pagedHandle` for
`tools/list`. -/
def pagedSteps : List (Request × ListReply) :=
  [(mkListRequest "tools/list" "",
    ListReply.ok { tools := [sampleTool1], nextCursor := "c1" }),
   (mkListRequest "tools/list" "c1",
    ListReply.ok { tools := [sampleTool2] })]

/-- C7 witness: against `pagedHandle` the loop runs two chained pages and the
fetch concatenates them in order. -/
theorem stdio_list_fetch_paginates_witness :
    sendRequestLoop pagedHandle "tools/list" 3 "" = some (pagedSteps, none) ∧
    List.Chain' (pageFollows "tools/list") pagedSteps ∧
    fetchToolsAndResourcesStdio "S" pagedHandle 3 =
      some ([sampleTool1, sampleTool2], [sampleRes1], none) := by
  have h : sendRequestLoop pagedHandle "tools/list" 3 "" = some (pagedSteps, none) := rfl
  have hs := stdio_list_fetch_paginates "S" pagedHandle 3 "tools/list" pagedSteps none h
  exact ⟨h, hs.2.2.1, hs.2.2.2.2 _ _ rfl rfl⟩

/-- If a terminating run of the pagination loop ends on an error reply, the
run's error outcome is `none` exactly when the error message is
`"Method not found"`, and the wrapped message otherwise. -/
theorem sendRequestLoop_err_last (handle : Request → ListReply) (method : String) :
    ∀ (fuel : Nat) (cursor : String) (steps : List (Request × ListReply)) (err : Option String),
      sendRequestLoop handle method fuel cursor = some (steps, err) →
      ∀ r msg, steps.getLast? = some (r, ListReply.err msg) →
        (msg = "Method not found" → err = none) ∧
        (msg ≠ "Method not found" → err = some ("error response: " ++ msg)) := by
  intro fuel
  induction fuel with
  | zero => intro cursor steps err h; exact absurd h (by simp [sendRequestLoop])
  | succ fuel ih =>
    intro cursor steps err h
    rw [sendRequestLoop] at h
    cases hh : handle (mkListRequest method cursor) with
    | ok page =>
      rw [hh] at h
      dsimp only at h
      by_cases hnc : page.nextCursor = ""
      · rw [if_pos hnc, Option.some.injEq, Prod.mk.injEq] at h
        obtain ⟨rfl, rfl⟩ := h
        intro r msg hlast
        have h2 : ListReply.ok page = ListReply.err msg :=
          congrArg Prod.snd (Option.some.inj hlast)
        exact absurd h2 (by simp)
      · rw [if_neg hnc] at h
        cases hrec : sendRequestLoop handle method fuel page.nextCursor with
        | none => rw [hrec] at h; exact absurd h (by simp)
        | some pr =>
          obtain ⟨steps', err'⟩ := pr
          rw [hrec, Option.some.injEq, Prod.mk.injEq] at h
          obtain ⟨rfl, rfl⟩ := h
          intro r msg hlast
          obtain ⟨x, xs, rfl⟩ : ∃ x xs, steps' = x :: xs := by
            cases steps' with
            | nil =>
              obtain ⟨-, h2, -, -⟩ := sendRequestLoop_spec handle method fuel
                page.nextCursor [] err' hrec
              exact absurd h2 (by simp)
            | cons x xs => exact ⟨x, xs, rfl⟩
          rw [List.getLast?_cons_cons] at hlast
          exact ih page.nextCursor (x :: xs) err' hrec r msg hlast
    | err msg0 =>
      rw [hh] at h
      dsimp only at h
      by_cases hmsg : msg0 = "Method not found"
      · rw [if_pos hmsg, Option.some.injEq, Prod.mk.injEq] at h
        obtain ⟨rfl, rfl⟩ := h
        intro r msg hlast
        have h2 : ListReply.err msg0 = ListReply.err msg :=
          congrArg Prod.snd (Option.some.inj hlast)
        have : msg0 = msg := by injection h2
        subst this
        exact ⟨fun _ => rfl, fun hne => absurd hmsg hne⟩
      · rw [if_neg hmsg, Option.some.injEq, Prod.mk.injEq] at h
        obtain ⟨rfl, rfl⟩ := h
        intro r msg hlast
        have h2 : ListReply.err msg0 = ListReply.err msg :=
          congrArg Prod.snd (Option.some.inj hlast)
        have : msg0 = msg := by injection h2
        subst this
        exact ⟨fun heq => absurd heq hmsg, fun _ => rfl⟩

/-- C8: a stdio list fetch returns the pages collected so far with no error
when the reply is a JSON-RPC error whose message is exactly
`"Method not found"` (an empty list when it happens on the first page), and
aborts with an error on any other error reply. -/
theorem stdio_method_not_found_tolerated (handle : Request → ListReply) (method : String)
    (fuel : Nat) (steps : List (Request × ListReply)) (err : Option String)
    (h : sendRequestLoop handle method fuel "" = some (steps, err)) :
    sendRequest handle method fuel = some (okPages steps, err) ∧
    (∀ r msg, steps.getLast? = some (r, ListReply.err msg) →
      (msg = "Method not found" → err = none) ∧
      (msg ≠ "Method not found" → err = some ("error response: " ++ msg))) ∧
    (∀ e, handle (mkListRequest method "") = ListReply.err e → 0 < fuel →
      (e = "Method not found" → sendRequest handle method fuel = some ([], none)) ∧
      (e ≠ "Method not found" →
        sendRequest handle method fuel = some ([], some ("error response: " ++ e)))) := by
  refine ⟨by rw [sendRequest, h]; rfl,
    sendRequestLoop_err_last handle method fuel "" steps err h, ?_⟩
  intro e he hfuel
  obtain ⟨fuel', rfl⟩ : ∃ fuel', fuel = fuel' + 1 := by
    cases fuel with
    | zero => exact absurd hfuel (by simp)
    | succ n => exact ⟨n, rfl⟩
  constructor
  · intro hmnf
    rw [sendRequest, sendRequestLoop, he]
    dsimp only
    rw [if_pos hmnf]
    rfl
  · intro hne
    rw [sendRequest, sendRequestLoop, he]
    dsimp only
    rw [if_neg hne]
    rfl

/-- A backend that answers every list request with the JSON-RPC error
`"Method not found"`. -/
def mnfHandle : Request → ListReply := fun _ => ListReply.err "Method not found"

/-- A backend that answers every list request with an unrelated error. -/
def boomHandle : Request → ListReply := fun _ => ListReply.err "boom"

/-- C8 witness: a first-page `"Method not found"` yields the empty catalog
without error; a first-page `"boom"` aborts the list's fetch with an error. -/
theorem stdio_method_not_found_tolerated_witness :
    sendRequest mnfHandle "resources/list" 1 = some ([], none) ∧
    sendRequest boomHandle "tools/list" 1 = some ([], some ("error response: " ++ "boom")) := by
  have h1 : sendRequestLoop mnfHandle "resources/list" 1 "" =
      some ([(mkListRequest "resources/list" "", ListReply.err "Method not found")], none) := rfl
  have h2 : sendRequestLoop boomHandle "tools/list" 1 "" =
      some ([(mkListRequest "tools/list" "", ListReply.err "boom")],
        some ("error response: " ++ "boom")) := rfl
  have hs1 := stdio_method_not_found_tolerated mnfHandle "resources/list" 1 _ _ h1
  have hs2 := stdio_method_not_found_tolerated boomHandle "tools/list" 1 _ _ h2
  exact ⟨(hs1.2.2 "Method not found" rfl (by decide)).1 rfl,
    (hs2.2.2 "boom" rfl (by decide)).2 (by decide)⟩

/-- A stdio backend state with empty caches, named `S`. -/
def stdioServerS : MCPServer := { config := { name := "S", command := "/bin/mcp" } }

/-- A backend whose `tools/list` always fails with an ordinary error while
`resources/list` succeeds with one page. -/
def brokenToolsHandle : Request → ListReply := fun r =>
  if r.method = "tools/list" then ListReply.err "boom"
  else ListReply.ok { resources := [sampleRes1] }

/-- C3 counterexample: with `brokenToolsHandle`, the fetch attempts both
lists and returns the successfully fetched resource catalog `[sampleRes1]`
alongside the non-nil error, but `refreshToolsAndResources` returns the error
before storing anything: the backend's cached catalogs stay empty, so the
partially fetched catalog is discarded rather than retained. -/
theorem refresh_error_leaves_catalogs_unchanged :
    fetchToolsAndResourcesStdio "S" brokenToolsHandle 2 =
      some ([], [sampleRes1],
        some "failed to fetch tools for server S: error response: boom") ∧
    refreshToolsAndResources stdioServerS brokenToolsHandle 2 =
      some (stdioServerS,
        some "failed to fetch tools for server S: error response: boom") ∧
    stdioServerS.resources = [] ∧ stdioServerS.tools = [] :=
  ⟨rfl, rfl, rfl, rfl⟩

/-- C3 (amended): when the stdio fetch fails, both lists were still
attempted — the resources catalog returned by `fetchToolsAndResourcesStdio`
comes from the `resources/list` exchange even when `tools/list` failed, and
the returned error is non-nil and names the tools failure — but
`refreshToolsAndResources` then returns that error without storing anything,
leaving the backend state (all four cached catalogs) unchanged; the failing
list itself contributes no items. -/
theorem fetch_error_discards_partial_catalogs (s : MCPServer) (handle : Request → ListReply)
    (fuel : Nat) (tools : List ToolInfo) (resources : List ResourceInfo) (e : String)
    (hfetch : fetchToolsAndResourcesStdio s.config.name handle fuel =
      some (tools, resources, some e)) :
    refreshToolsAndResources s handle fuel = some (s, some e) ∧
    (∀ tp te rp, sendRequest handle "tools/list" fuel = some (tp, some te) →
      sendRequest handle "resources/list" fuel = some (rp, none) →
      tools = [] ∧ resources = (rp.map ListPage.resources).flatten ∧
      e = "failed to fetch tools for server " ++ s.config.name ++ ": " ++ te) := by
  constructor
  · rw [refreshToolsAndResources, hfetch]
  · intro tp te rp htp hrp
    rw [fetchToolsAndResourcesStdio, htp, hrp] at hfetch
    simp only [Option.isSome_some, if_pos, Option.isSome_none, Option.some.injEq,
      Prod.mk.injEq, if_true, if_false, Bool.false_eq_true] at hfetch
    obtain ⟨h1, h2, h3⟩ := hfetch
    refine ⟨h1.symm, ?_, ?_⟩
    · rw [← h2, foldl_append_eq_flatten]
      simp
    · exact h3.symm

/-- C3 witness for the amended statement, at `stdioServerS` against
`brokenToolsHandle`. -/
theorem fetch_error_discards_partial_catalogs_witness :
    refreshToolsAndResources stdioServerS brokenToolsHandle 2 =
      some (stdioServerS,
        some "failed to fetch tools for server S: error response: boom") ∧
    (([] : List ToolInfo) = [] ∧
     [sampleRes1] =
       ([({ resources := [sampleRes1] } : ListPage)].map ListPage.resources).flatten ∧
     "failed to fetch tools for server S: error response: boom" =
       "failed to fetch tools for server " ++ stdioServerS.config.name ++ ": " ++
         "error response: boom") := by
  have h := fetch_error_discards_partial_catalogs stdioServerS brokenToolsHandle 2
    [] [sampleRes1] "failed to fetch tools for server S: error response: boom" rfl
  exact ⟨h.1, h.2 [] "error response: boom" [{ resources := [sampleRes1] }] rfl rfl⟩

/-- The allowed-tool predicate depends only on the tool's name. -/
theorem toolAllowedPred_eq_of_name (cfg : MCPServerConfig) {t t' : ToolInfo}
    (h : t.name = t'.name) : toolAllowedPred cfg t = toolAllowedPred cfg t' := by
  simp [toolAllowedPred, h]

/-- The allowed-resource predicate depends only on the resource's name. -/
theorem resourceAllowedPred_eq_of_name (cfg : MCPServerConfig) {r r' : ResourceInfo}
    (h : r.name = r'.name) : resourceAllowedPred cfg r = resourceAllowedPred cfg r' := by
  simp [resourceAllowedPred, h]

/-- The allowed-tool predicate holds exactly when the allow-list is empty or
contains the tool's name. -/
theorem toolAllowedPred_iff (cfg : MCPServerConfig) (t : ToolInfo) :
    toolAllowedPred cfg t = true ↔
      (cfg.allowedTools = [] ∨ t.name ∈ cfg.allowedTools) := by
  simp [toolAllowedPred, List.isEmpty_iff]

/-- The allowed-resource predicate holds exactly when the allow-list is empty
or contains the resource's name. -/
theorem resourceAllowedPred_iff (cfg : MCPServerConfig) (r : ResourceInfo) :
    resourceAllowedPred cfg r = true ↔
      (cfg.allowedResources = [] ∨ r.name ∈ cfg.allowedResources) := by
  simp [resourceAllowedPred, List.isEmpty_iff]

/-- C4: after a successful catalog refresh, each fetched tool lands in the
allowed list when the backend's `allowedTools` is empty or contains its name
and in the restricted list otherwise (identically for resources); the allowed
and restricted lists are disjoint by name; and their concatenation is a
permutation of (the same multiset as) the raw fetched catalog. -/
theorem refresh_partitions_catalog (s s' : MCPServer) (handle : Request → ListReply)
    (fuel : Nat) (toolInfos : List ToolInfo) (resourceInfos : List ResourceInfo)
    (hfetch : fetchToolsAndResourcesStdio s.config.name handle fuel =
      some (toolInfos, resourceInfos, none))
    (hrefresh : refreshToolsAndResources s handle fuel = some (s', none)) :
    (∀ t ∈ toolInfos,
      ((s.config.allowedTools = [] ∨ t.name ∈ s.config.allowedTools) → t ∈ s'.tools) ∧
      (¬(s.config.allowedTools = [] ∨ t.name ∈ s.config.allowedTools) →
        t ∈ s'.restrictedTools)) ∧
    (∀ n, n ∈ s'.tools.map ToolInfo.name → n ∉ s'.restrictedTools.map ToolInfo.name) ∧
    (s'.tools ++ s'.restrictedTools).Perm toolInfos ∧
    (∀ r ∈ resourceInfos,
      ((s.config.allowedResources = [] ∨ r.name ∈ s.config.allowedResources) →
        r ∈ s'.resources) ∧
      (¬(s.config.allowedResources = [] ∨ r.name ∈ s.config.allowedResources) →
        r ∈ s'.restrictedResources)) ∧
    (∀ n, n ∈ s'.resources.map ResourceInfo.name →
      n ∉ s'.restrictedResources.map ResourceInfo.name) ∧
    (s'.resources ++ s'.restrictedResources).Perm resourceInfos := by
  rw [refreshToolsAndResources, hfetch] at hrefresh
  have hs' : s' = { s with
      tools := (partitionTools s.config toolInfos).fst
      restrictedTools := (partitionTools s.config toolInfos).snd
      resources := (partitionResources s.config resourceInfos).fst
      restrictedResources := (partitionResources s.config resourceInfos).snd } := by
    have := Option.some.inj hrefresh
    exact (congrArg Prod.fst this).symm
  subst hs'
  refine ⟨?_, ?_, ?_, ?_, ?_, ?_⟩
  · intro t ht
    constructor
    · intro hcond
      exact List.mem_filter.mpr ⟨ht, (toolAllowedPred_iff s.config t).mpr hcond⟩
    · intro hcond
      refine List.mem_filter.mpr ⟨ht, ?_⟩
      simp only [Bool.not_eq_true']
      exact Bool.not_eq_true _ ▸ fun hb => hcond ((toolAllowedPred_iff s.config t).mp hb)
  · intro n hmem hmem'
    obtain ⟨t, htf, rfl⟩ := List.mem_map.mp hmem
    obtain ⟨t', ht'f, hname⟩ := List.mem_map.mp hmem'
    have hpt : toolAllowedPred s.config t = true := (List.mem_filter.mp htf).2
    have hpt' : (!toolAllowedPred s.config t') = true := (List.mem_filter.mp ht'f).2
    rw [toolAllowedPred_eq_of_name s.config hname, hpt] at hpt'
    exact absurd hpt' (by simp)
  · exact List.filter_append_perm _ toolInfos
  · intro r hr
    constructor
    · intro hcond
      exact List.mem_filter.mpr ⟨hr, (resourceAllowedPred_iff s.config r).mpr hcond⟩
    · intro hcond
      refine List.mem_filter.mpr ⟨hr, ?_⟩
      simp only [Bool.not_eq_true']
      exact Bool.not_eq_true _ ▸ fun hb => hcond ((resourceAllowedPred_iff s.config r).mp hb)
  · intro n hmem hmem'
    obtain ⟨r, hrf, rfl⟩ := List.mem_map.mp hmem
    obtain ⟨r', hr'f, hname⟩ := List.mem_map.mp hmem'
    have hpr : resourceAllowedPred s.config r = true := (List.mem_filter.mp hrf).2
    have hpr' : (!resourceAllowedPred s.config r') = true := (List.mem_filter.mp hr'f).2
    rw [resourceAllowedPred_eq_of_name s.config hname, hpr] at hpr'
    exact absurd hpr' (by simp)
  · exact List.filter_append_perm _ resourceInfos

/-- A stdio backend named `A` whose allow-list admits only `t1`. -/
def serverA : MCPServer :=
  { config := { name := "A", command := "/bin/mcp", allowedTools := ["t1"] } }

/-- A backend transport serving a fixed one-page catalog: tools `t1`, `t2`
and resource `r1`. -/
def catalogHandle : Request → ListReply := fun r =>
  if r.method = "tools/list" then ListReply.ok { tools := [sampleTool1, sampleTool2] }
  else ListReply.ok { resources := [sampleRes1] }

/-- The backend state `refreshToolsAndResources` produces for `serverA`
against `catalogHandle`. -/
def serverAPost : MCPServer :=
  { config := { name := "A", command := "/bin/mcp", allowedTools := ["t1"] },
    tools := [sampleTool1], restrictedTools := [sampleTool2],
    resources := [sampleRes1] }

/-- C4 witness: for `serverA` (allow-list `["t1"]`) and the raw catalog
`[t1, t2]`, the refresh puts `t1` in the allowed list, `t2` in the restricted
list, and their concatenation is a permutation of the raw catalog. -/
theorem refresh_partitions_catalog_witness :
    refreshToolsAndResources serverA catalogHandle 2 = some (serverAPost, none) ∧
    sampleTool1 ∈ serverAPost.tools ∧ sampleTool2 ∈ serverAPost.restrictedTools ∧
    (serverAPost.tools ++ serverAPost.restrictedTools).Perm [sampleTool1, sampleTool2] := by
  have hrefresh : refreshToolsAndResources serverA catalogHandle 2 =
      some (serverAPost, none) := rfl
  have h := refresh_partitions_catalog serverA serverAPost catalogHandle 2
    [sampleTool1, sampleTool2] [sampleRes1] rfl hrefresh
  exact ⟨hrefresh, (h.1 sampleTool1 (by decide)).1 (Or.inr (by decide)),
    (h.1 sampleTool2 (by decide)).2 (by decide), h.2.2.1⟩

/-! ## Header copying (cmd/proxy/proxy.go `copyHeaders`, used on forward by
`proxyHttpRequest` and on response copy by `HTTPProxy.proxyRequest`) -/

/-- An `http.Header`: a map from (canonical) header name to its values,
rendered as an association list with distinct keys. -/
abbrev Header := List (String × List String)

/-- The hop-by-hop names filtered by `copyHeaders`, verbatim from the source. -/
def hopByHopHeaders : List String :=
  ["Connection", "Proxy-Connection", "Keep-Alive", "Proxy-Authenticate",
   "Proxy-Authorization", "Te", "Trailers", "Transfer-Encoding", "Upgrade"]

/-- Go map assignment `dst[k] = v`: replace the binding for `k` or add one. -/
def setHeader : Header → String → List String → Header
  | [], k, v => [(k, v)]
  | p :: rest, k, v => if p.fst = k then (k, v) :: rest else p :: setHeader rest k v

/-- Go map read `h[k]`. -/
def getHeader (h : Header) (k : String) : Option (List String) :=
  (h.find? (fun p => p.fst = k)).map Prod.snd

/-- `copyHeaders` from proxy.go: iterate the source header map, skip the
hop-by-hop names, and assign (a copy of) every other entry's value slice into
the destination. -/
def copyHeaders (src dst : Header) : Header :=
  src.foldl (fun d p =>
    if hopByHopHeaders.contains p.fst then d
    else setHeader d p.fst p.snd) dst

/-- The forward direction: `proxyHttpRequest` copies the client's headers
onto the outgoing backend request with `copyHeaders`. -/
def proxyHttpRequestForwardHeaders (clientHeader backendReqHeader : Header) : Header :=
  copyHeaders clientHeader backendReqHeader

/-- The response-copy direction: `HTTPProxy.proxyRequest` copies the backend
response's headers onto the client response writer with `copyHeaders`. -/
def proxyResponseCopyHeaders (backendRespHeader clientRespHeader : Header) : Header :=
  copyHeaders backendRespHeader clientRespHeader

theorem getHeader_setHeader_self (h : Header) (k : String) (v : List String) :
    getHeader (setHeader h k v) k = some v := by
  induction h with
  | nil => simp [setHeader, getHeader]
  | cons p rest ih =>
    by_cases hp : p.fst = k
    · simp [setHeader, hp, getHeader, List.find?_cons]
    · simp only [setHeader, if_neg hp]
      simpa [getHeader, List.find?_cons, hp] using ih

theorem getHeader_setHeader_ne (h : Header) (k' k : String) (v : List String)
    (hk : k' ≠ k) : getHeader (setHeader h k' v) k = getHeader h k := by
  induction h with
  | nil => simp [setHeader, getHeader, hk]
  | cons p rest ih =>
    by_cases hp : p.fst = k'
    · simp [setHeader, hp, getHeader, List.find?_cons, hk, hp ▸ hk]
    · simp only [setHeader, if_neg hp]
      by_cases hpk : p.fst = k
      · simp [getHeader, List.find?_cons, hpk]
      · simpa [getHeader, List.find?_cons, hpk] using ih

/-- Keys absent from the source are untouched by `copyHeaders`. -/
theorem getHeader_copyHeaders_not_mem (src : Header) (k : String)
    (hk : ∀ p ∈ src, p.fst ≠ k) :
    ∀ dst, getHeader (copyHeaders src dst) k = getHeader dst k := by
  induction src with
  | nil => intro dst; rfl
  | cons p rest ih =>
    intro dst
    have hp : p.fst ≠ k := hk p (List.mem_cons_self _ _)
    have hrest : ∀ q ∈ rest, q.fst ≠ k := fun q hq => hk q (List.mem_cons_of_mem _ hq)
    by_cases hhop : hopByHopHeaders.contains p.fst
    · unfold copyHeaders
      rw [List.foldl_cons, if_pos hhop]
      exact ih hrest dst
    · simp only [copyHeaders, List.foldl_cons, if_neg hhop]
      rw [show (List.foldl (fun d q =>
          if hopByHopHeaders.contains q.fst then d else setHeader d q.fst q.snd)
          (setHeader dst p.fst p.snd) rest) =
          copyHeaders rest (setHeader dst p.fst p.snd) from rfl,
        ih hrest (setHeader dst p.fst p.snd), getHeader_setHeader_ne _ _ _ _ hp]

/-- `copyHeaders` never touches the destination's binding for a hop-by-hop
name. -/
theorem getHeader_copyHeaders_hop (k : String) (hk : k ∈ hopByHopHeaders) :
    ∀ (src dst : Header), getHeader (copyHeaders src dst) k = getHeader dst k := by
  intro src
  induction src with
  | nil => intro dst; rfl
  | cons p rest ih =>
    intro dst
    by_cases hp : hopByHopHeaders.contains p.fst
    · unfold copyHeaders
      rw [List.foldl_cons, if_pos hp]
      exact ih dst
    · have hpk : p.fst ≠ k := fun he => hp (he ▸ List.elem_iff.mpr hk)
      simp only [copyHeaders, List.foldl_cons, if_neg hp]
      rw [show (List.foldl (fun d q =>
          if hopByHopHeaders.contains q.fst then d else setHeader d q.fst q.snd)
          (setHeader dst p.fst p.snd) rest) =
          copyHeaders rest (setHeader dst p.fst p.snd) from rfl,
        ih (setHeader dst p.fst p.snd), getHeader_setHeader_ne _ _ _ _ hpk]

/-- `copyHeaders` carries every non-hop-by-hop entry of a duplicate-free
source into the destination with its values unchanged. -/
theorem getHeader_copyHeaders_of_mem (k : String) (vv : List String)
    (hk : k ∉ hopByHopHeaders) :
    ∀ (src : Header), (src.map Prod.fst).Nodup → getHeader src k = some vv →
      ∀ dst, getHeader (copyHeaders src dst) k = some vv := by
  intro src
  induction src with
  | nil =>
    intro _ hfind
    exact absurd hfind (by simp [getHeader])
  | cons p rest ih =>
    intro hnodup hfind dst
    by_cases hp : p.fst = k
    · have hvv : p.snd = vv := by
        simpa [getHeader, List.find?_cons, hp] using hfind
      have hphop : ¬hopByHopHeaders.contains p.fst := by
        rw [hp]
        exact fun hc => hk (List.elem_iff.mp hc)
      simp only [copyHeaders, List.foldl_cons, if_neg hphop]
      rw [show (List.foldl (fun d q =>
          if hopByHopHeaders.contains q.fst then d else setHeader d q.fst q.snd)
          (setHeader dst p.fst p.snd) rest) =
          copyHeaders rest (setHeader dst p.fst p.snd) from rfl]
      have hnot : ∀ q ∈ rest, q.fst ≠ k := by
        intro q hq he
        exact (List.nodup_cons.mp hnodup).1 (List.mem_map.mpr ⟨q, hq, by rw [he, hp]⟩)
      rw [getHeader_copyHeaders_not_mem rest k hnot, hp, getHeader_setHeader_self, hvv]
    · have hfind' : getHeader rest k = some vv := by
        simpa [getHeader, List.find?_cons, hp] using hfind
      have hnodup' : (rest.map Prod.fst).Nodup := (List.nodup_cons.mp hnodup).2
      by_cases hphop : hopByHopHeaders.contains p.fst
      · unfold copyHeaders
        rw [List.foldl_cons, if_pos hphop]
        exact ih hnodup' hfind' dst
      · simp only [copyHeaders, List.foldl_cons, if_neg hphop]
        exact ih hnodup' hfind' (setHeader dst p.fst p.snd)

/-- C5: on the forward copy (`proxyHttpRequest`) and on the response copy
(`HTTPProxy.proxyRequest`) alike, none of the nine hop-by-hop headers is
copied — the destination's binding for such a name is left untouched — and
every other header present in the (duplicate-free) source is copied with its
values unchanged. -/
theorem copyHeaders_strips_hop_by_hop (src dst : Header)
    (hsrc : (src.map Prod.fst).Nodup) :
    (∀ k ∈ hopByHopHeaders,
      getHeader (proxyHttpRequestForwardHeaders src dst) k = getHeader dst k ∧
      getHeader (proxyResponseCopyHeaders src dst) k = getHeader dst k) ∧
    (∀ k vv, k ∉ hopByHopHeaders → getHeader src k = some vv →
      getHeader (proxyHttpRequestForwardHeaders src dst) k = some vv ∧
      getHeader (proxyResponseCopyHeaders src dst) k = some vv) := by
  constructor
  · intro k hk
    exact ⟨getHeader_copyHeaders_hop k hk src dst, getHeader_copyHeaders_hop k hk src dst⟩
  · intro k vv hk hfind
    exact ⟨getHeader_copyHeaders_of_mem k vv hk src hsrc hfind dst,
      getHeader_copyHeaders_of_mem k vv hk src hsrc hfind dst⟩

/-- C5 witness: a source carrying `Connection` and `Content-Type`; the former
is not copied (the empty destination still lacks it), the latter arrives with
its value intact, on both directions. -/
theorem copyHeaders_strips_hop_by_hop_witness :
    getHeader (proxyHttpRequestForwardHeaders
      [("Connection", ["keep-alive"]), ("Content-Type", ["application/json"])] [])
      "Connection" = none ∧
    getHeader (proxyResponseCopyHeaders
      [("Connection", ["keep-alive"]), ("Content-Type", ["application/json"])] [])
      "Content-Type" = some ["application/json"] := by
  have h := copyHeaders_strips_hop_by_hop
    [("Connection", ["keep-alive"]), ("Content-Type", ["application/json"])] []
    (by decide)
  exact ⟨(h.1 "Connection" (by decide)).1,
    (h.2 "Content-Type" ["application/json"] (by decide) rfl).2⟩

/-! ## Stdio frontend tools/call (cmd/proxy/command_mode.go) -/

/-- A JSON-RPC 2.0 error object (`rpcError` in command_mode.go). -/
structure RpcErrorObj where
  code : Int
  message : String
  data : Option String := none
  deriving Repr, DecidableEq

/-- `toolCallParams` from command_mode.go: the params struct the stdio
frontend decodes for `tools/call` — `serverName`, `toolName` and raw
`arguments`. -/
structure ToolCallParams where
  serverName : String
  toolName : String
  arguments : String
  deriving Repr, DecidableEq

/-- `json.Unmarshal` of a params object into `toolCallParams`: fields are
matched by their JSON tags, unknown fields (such as `name`) are ignored, and
missing string fields keep Go's zero value `""`. The params object is an
association list from field name to raw value. -/
def decodeToolCallParams (fields : List (String × String)) : ToolCallParams :=
  { serverName := (((fields.find? (fun p => p.fst = "serverName")).map Prod.snd).getD ""),
    toolName := (((fields.find? (fun p => p.fst = "toolName")).map Prod.snd).getD ""),
    arguments := (((fields.find? (fun p => p.fst = "arguments")).map Prod.snd).getD "null") }

/-- The `{status, headers, body}` value `handleToolCall` builds from
`ProxyRequest`'s output (`ProxyResponseOutput` in proxy.go). -/
structure ProxyResponseOutput where
  status : Int
  headers : Header
  body : String
  deriving Repr, DecidableEq

/-- `CommandProxy.handleToolCall` from command_mode.go: reject params missing
`serverName` or `toolName` with -32602; resolve the backend by name (-32001
if unknown); enforce the allow-list (-32002); forward through `ProxyRequest`
(abstracted as the `proxyRequest` argument) and report a dispatch failure as
-32003 carrying the underlying error text in `data`. -/
def handleToolCall (servers : List MCPServer)
    (proxyRequest : MCPServer → Except String ProxyResponseOutput)
    (p : ToolCallParams) : Except RpcErrorObj ProxyResponseOutput :=
  if p.serverName = "" || p.toolName = "" then
    .error { code := -32602,
             message := "Invalid params for tools/call: serverName and toolName are required" }
  else
    match findMCPServerByName servers p.serverName with
    | none =>
      .error { code := -32001, message := "Server '" ++ p.serverName ++ "' not found" }
    | some server =>
      if !server.IsToolAllowed p.toolName then
        .error { code := -32002, message := "Tool '" ++ p.toolName ++
          "' not allowed on server '" ++ p.serverName ++ "'" }
      else
        match proxyRequest server with
        | .error e =>
          .error { code := -32003,
                   message := "Failed to proxy tool call to '" ++ p.serverName ++ "'",
                   data := some e }
        | .ok out => .ok out

/-- A successful dispatch output used below. -/
def okToolOutput : ProxyResponseOutput := { status := 200, headers := [], body := "{}" }

/-- C6: the stdio frontend's `tools/call` handler contradicts the claimed
interface (which the repository's own tests in command_mode_test.go also
expect). The spec-shaped params object `{"name": "tool1", "arguments": {}}`
decodes with empty `serverName`/`toolName` — the `name` field is ignored —
so the handler rejects it with -32602 even though `name` is present; and a
well-formed call whose dispatch fails is answered with code -32003 (not
-32000), albeit with the underlying error text in `data`. -/
theorem handleToolCall_contradicts_claimed_interface :
    decodeToolCallParams [("name", "tool1"), ("arguments", "{}")] =
      { serverName := "", toolName := "", arguments := "{}" } ∧
    handleToolCall [serverA] (fun _ => Except.ok okToolOutput)
        (decodeToolCallParams [("name", "tool1"), ("arguments", "{}")]) =
      Except.error { code := -32602,
                     message := "Invalid params for tools/call: serverName and toolName are required" } ∧
    handleToolCall [serverA] (fun _ => Except.error "dial tcp 10.0.0.1:80: connection refused")
        { serverName := "A", toolName := "t1", arguments := "{}" } =
      Except.error { code := -32003,
                     message := "Failed to proxy tool call to 'A'",
                     data := some "dial tcp 10.0.0.1:80: connection refused" } ∧
    (-32003 : Int) ≠ -32000 :=
  ⟨rfl, rfl, rfl, by decide⟩

/-! ## Supervisor restart step (config.go `monitorProcess` lines 557-609 and
`startStdioProcess` lines 266-315)

The post-exit behaviour of the supervisor is a pure function of the two
booleans it consults: whether the supervision context has been cancelled
(Shutdown ran) and whether a restart is already in progress. Sleeping is
recorded as the backoff the step performs; spawning as a boolean. -/

/-- `backoff := 3 * time.Second` in `monitorProcess`. -/
def restartBackoffSeconds : Nat := 3

/-- The supervisor-relevant state of a stdio backend. -/
structure SupervisorState where
  cancelled : Bool
  restarting : Bool
  deriving Repr, DecidableEq

/-- `startStdioProcess`'s guard: under the mutex, if `restarting` is set the
call returns immediately (spawning nothing); otherwise it sets up pipes,
starts the subprocess and registers the supervisor. The boolean records
whether a new subprocess was started. -/
def startStdioProcessStep (st : SupervisorState) : SupervisorState × Bool :=
  if st.restarting then (st, false) else (st, true)

/-- `monitorProcess` after `cmd.Wait()` returns: if a restart is already in
progress, return; if the supervision context is cancelled, return; otherwise
set `restarting`, sleep the fixed backoff, call `startStdioProcess`, and
clear `restarting` (the source's deferred reset). Returns the final state,
the backoff slept (if any) and whether a new subprocess was spawned. -/
def monitorProcessExitStep (st : SupervisorState) : SupervisorState × Option Nat × Bool :=
  if st.restarting then (st, none, false)
  else if st.cancelled then (st, none, false)
  else
    let st1 : SupervisorState := { st with restarting := true }
    let spawn := startStdioProcessStep st1
    ({ spawn.fst with restarting := false }, some restartBackoffSeconds, spawn.snd)

/-- C9: exhaustive evaluation of the post-exit step. After Shutdown
(`cancelled = true`) no new subprocess is ever started, as claimed; but in
the restart path (`cancelled = false`, `restarting = false`) the step sets
the flag, sleeps the 3-second backoff and calls the spawn routine — which
sees `restarting = true` and returns without starting a process, so the
claimed respawn never happens. -/
theorem monitorProcess_restart_is_noop :
    monitorProcessExitStep { cancelled := false, restarting := false } =
      ({ cancelled := false, restarting := false }, some restartBackoffSeconds, false) ∧
    monitorProcessExitStep { cancelled := true, restarting := false } =
      ({ cancelled := true, restarting := false }, none, false) ∧
    monitorProcessExitStep { cancelled := true, restarting := true } =
      ({ cancelled := true, restarting := true }, none, false) ∧
    monitorProcessExitStep { cancelled := false, restarting := true } =
      ({ cancelled := false, restarting := true }, none, false) :=
  ⟨rfl, rfl, rfl, rfl⟩

/-! ## Catalog getters return fresh copies (config.go lines 162-196)

`GetTools` and friends do `make([]T, len(cached)); copy(dst, cached); return
dst`. Because Go slices are references into a heap, the aliasing content of
the claim is modelled with an explicit store: a heap of slices addressed by
reference, the getters allocating a fresh reference with copied contents, and
element assignment mutating one referenced slice in place. -/

/-- A heap of slices of `α`, addressed by index. -/
abbrev SliceHeap (α : Type) := List (List α)

/-- Dereference a slice. -/
def readSlice {α : Type} (h : SliceHeap α) (ref : Nat) : List α := (h[ref]?).getD []

/-- `make([]T, len(src)); copy(dst, src); return dst`: allocate a fresh slice
holding the same elements and return its reference. -/
def copySliceAlloc {α : Type} (h : SliceHeap α) (ref : Nat) : SliceHeap α × Nat :=
  (h ++ [readSlice h ref], h.length)

/-- In-place element assignment `slice[i] = v` through a reference. -/
def writeSliceElem {α : Type} (h : SliceHeap α) (ref i : Nat) (v : α) : SliceHeap α :=
  h.set ref ((readSlice h ref).set i v)

/-- The slice references held in an `MCPServer`'s cached catalog fields. -/
structure MCPServerCatalogRefs where
  toolsRef : Nat
  restrictedToolsRef : Nat
  resourcesRef : Nat
  restrictedResourcesRef : Nat
  deriving Repr, DecidableEq

/-- `MCPServer.GetTools`: copy of the cached `tools` slice. -/
def GetTools (h : SliceHeap ToolInfo) (s : MCPServerCatalogRefs) : SliceHeap ToolInfo × Nat :=
  copySliceAlloc h s.toolsRef

/-- `MCPServer.GetRestrictedTools`: copy of the cached `restrictedTools`
slice. -/
def GetRestrictedTools (h : SliceHeap ToolInfo) (s : MCPServerCatalogRefs) :
    SliceHeap ToolInfo × Nat :=
  copySliceAlloc h s.restrictedToolsRef

/-- `MCPServer.GetResources`: copy of the cached `resources` slice. -/
def GetResources (h : SliceHeap ResourceInfo) (s : MCPServerCatalogRefs) :
    SliceHeap ResourceInfo × Nat :=
  copySliceAlloc h s.resourcesRef

/-- `MCPServer.GetRestrictedResources`: copy of the cached
`restrictedResources` slice. -/
def GetRestrictedResources (h : SliceHeap ResourceInfo) (s : MCPServerCatalogRefs) :
    SliceHeap ResourceInfo × Nat :=
  copySliceAlloc h s.restrictedResourcesRef

/-- The copy allocated by `copySliceAlloc` is fresh: same contents as the
source slice, a distinct reference, and writing any element through the new
reference leaves the source slice's contents unchanged. -/
theorem copySliceAlloc_fresh {α : Type} (h : SliceHeap α) (ref : Nat)
    (href : ref < h.length) :
    readSlice (copySliceAlloc h ref).fst (copySliceAlloc h ref).snd = readSlice h ref ∧
    (copySliceAlloc h ref).snd ≠ ref ∧
    (∀ i v, readSlice (writeSliceElem (copySliceAlloc h ref).fst
      (copySliceAlloc h ref).snd i v) ref = readSlice h ref) := by
  refine ⟨?_, ?_, ?_⟩
  · show readSlice (h ++ [readSlice h ref]) h.length = readSlice h ref
    unfold readSlice
    rw [List.getElem?_append_right (Nat.le_refl _)]
    simp
  · exact fun he => absurd (he ▸ href) (Nat.lt_irrefl _)
  · intro i v
    show readSlice ((h ++ [readSlice h ref]).set h.length _) ref = readSlice h ref
    unfold readSlice
    rw [List.getElem?_set_ne (Nat.ne_of_lt href).symm,
      List.getElem?_append_left href]

/-- C10: each of the four catalog getters returns a fresh copy of its cached
slice — equal contents, a reference distinct from the cached one — and
mutating any element of the returned slice leaves the backend's cached
catalog field unchanged. -/
theorem getters_return_fresh_copies (hT : SliceHeap ToolInfo) (hR : SliceHeap ResourceInfo)
    (s : MCPServerCatalogRefs)
    (h1 : s.toolsRef < hT.length) (h2 : s.restrictedToolsRef < hT.length)
    (h3 : s.resourcesRef < hR.length) (h4 : s.restrictedResourcesRef < hR.length) :
    (readSlice (GetTools hT s).fst (GetTools hT s).snd = readSlice hT s.toolsRef ∧
      (GetTools hT s).snd ≠ s.toolsRef ∧
      ∀ i v, readSlice (writeSliceElem (GetTools hT s).fst (GetTools hT s).snd i v)
        s.toolsRef = readSlice hT s.toolsRef) ∧
    (readSlice (GetRestrictedTools hT s).fst (GetRestrictedTools hT s).snd =
        readSlice hT s.restrictedToolsRef ∧
      (GetRestrictedTools hT s).snd ≠ s.restrictedToolsRef ∧
      ∀ i v, readSlice (writeSliceElem (GetRestrictedTools hT s).fst
        (GetRestrictedTools hT s).snd i v) s.restrictedToolsRef =
        readSlice hT s.restrictedToolsRef) ∧
    (readSlice (GetResources hR s).fst (GetResources hR s).snd =
        readSlice hR s.resourcesRef ∧
      (GetResources hR s).snd ≠ s.resourcesRef ∧
      ∀ i v, readSlice (writeSliceElem (GetResources hR s).fst (GetResources hR s).snd i v)
        s.resourcesRef = readSlice hR s.resourcesRef) ∧
    (readSlice (GetRestrictedResources hR s).fst (GetRestrictedResources hR s).snd =
        readSlice hR s.restrictedResourcesRef ∧
      (GetRestrictedResources hR s).snd ≠ s.restrictedResourcesRef ∧
      ∀ i v, readSlice (writeSliceElem (GetRestrictedResources hR s).fst
        (GetRestrictedResources hR s).snd i v) s.restrictedResourcesRef =
        readSlice hR s.restrictedResourcesRef) :=
  ⟨copySliceAlloc_fresh hT s.toolsRef h1,
   copySliceAlloc_fresh hT s.restrictedToolsRef h2,
   copySliceAlloc_fresh hR s.resourcesRef h3,
   copySliceAlloc_fresh hR s.restrictedResourcesRef h4⟩

/-- C10 witness: a concrete two-slot heap per element type. Mutating the
copy `GetTools` returns does not change the cached `tools` slice. -/
theorem getters_return_fresh_copies_witness :
    readSlice (GetTools [[sampleTool1], [sampleTool2]]
        { toolsRef := 0, restrictedToolsRef := 1,
          resourcesRef := 0, restrictedResourcesRef := 1 }).fst 2 = [sampleTool1] ∧
    readSlice (writeSliceElem (GetTools [[sampleTool1], [sampleTool2]]
        { toolsRef := 0, restrictedToolsRef := 1,
          resourcesRef := 0, restrictedResourcesRef := 1 }).fst 2 0 sampleTool2) 0 =
      [sampleTool1] := by
  have h := getters_return_fresh_copies [[sampleTool1], [sampleTool2]]
    [[sampleRes1], []]
    { toolsRef := 0, restrictedToolsRef := 1,
      resourcesRef := 0, restrictedResourcesRef := 1 }
    (by decide) (by decide) (by decide) (by decide)
  exact ⟨h.1.1, h.1.2.2 0 sampleTool2⟩

end SmartMCPProxy
